import Mathlib

/-!
Verification of the lazynews comment-tree materialization engine and its
surrounding application state machine.

The development shallowly embeds the relevant Rust source:
  * `src/hn.rs`: `clean_comment_text`, `strip_html_tags`, `decode_html_entities`,
    `build_comments_from_cache` (the stack-based materialization pass),
  * `src/app.rs`: the posts request lifecycle (`begin_posts_request`,
    `handle_posts_fetched`), the load-more threshold, and the comments view
    state (`load_comments`, the `LoadCommentsComplete` handler,
    `reset_comments_state`).

Machine integers (`u64`, `usize`) are modelled as `Nat`; the one wrapping
operation (`wrapping_add` on the request id) is modelled with an explicit
`% 2 ^ 64`.  Rust's `HashMap`/`HashSet` arguments of the pure tree builder
are modelled as functions `Nat → Option Item` / `Nat → Bool`.  The `while`
loop of the builder is modelled with explicit fuel; the theorems show that
any fuel larger than the size of the input forest suffices.  String
processing is modelled over `List Char` (structural recursion, so that the
kernel can evaluate it); Rust's Unicode-aware `str::trim` is modelled over
the ASCII whitespace class, which is exact on all inputs appearing here.
-/

namespace LazyNews

/-! ## Text cleaning (`src/hn.rs`) -/

/-- One fuel step per consumed character; leftmost, non-overlapping
replacement, as performed by `str::replace` in the source. -/
def replaceGo (pat rep : List Char) : Nat → List Char → List Char
  | 0, s => s
  | fuel + 1, s =>
    match s with
    | [] => []
    | c :: cs =>
      if pat.isPrefixOf s then rep ++ replaceGo pat rep fuel (s.drop pat.length)
      else c :: replaceGo pat rep fuel cs

def replaceL (s pat rep : List Char) : List Char :=
  match pat with
  | [] => s
  | _ :: _ => replaceGo pat rep s.length s

/-- `str::replace` on strings. -/
def rust_replace (s pat rep : String) : String :=
  String.mk (replaceL s.data pat.data rep.data)

/-- The character loop of `strip_html_tags`, threading the `in_tag` flag. -/
def stripTagsGo : Bool → List Char → List Char
  | _, [] => []
  | inTag, c :: cs =>
    if c = '<' then stripTagsGo true cs
    else if c = '>' then stripTagsGo false cs
    else if inTag then stripTagsGo true cs
    else c :: stripTagsGo inTag cs

/-- `strip_html_tags` from `src/hn.rs`. -/
def strip_html_tags (text : String) : String :=
  String.mk (stripTagsGo false text.data)

/-- `decode_html_entities` from `src/hn.rs`: the six replacements in source
order (`&quot;`, `&#x27;`, `&#x2F;`, `&amp;`, `&lt;`, `&gt;`). -/
def decode_html_entities (text : String) : String :=
  rust_replace
    (rust_replace
      (rust_replace
        (rust_replace
          (rust_replace (rust_replace text "&quot;" "\"") "&#x27;" "\x27")
          "&#x2F;" "/")
        "&amp;" "&")
      "&lt;" "<")
    "&gt;" ">"

/-- Split a character list at newline characters. -/
def splitNL : List Char → List (List Char)
  | [] => [[]]
  | c :: cs =>
    if c = '\n' then [] :: splitNL cs
    else
      match splitNL cs with
      | [] => [[c]]
      | l :: ls => (c :: l) :: ls

def stripTrailingCR (l : List Char) : List Char :=
  if l.getLast? = some '\r' then l.dropLast else l

/-- The lines of a string in the sense of `str::lines`: split at newlines,
drop the final empty segment produced by a trailing newline, and strip one
trailing carriage return from each line. -/
def rustLinesL (s : List Char) : List (List Char) :=
  let parts := splitNL s
  let parts2 := if parts.getLast? = some [] then parts.dropLast else parts
  parts2.map stripTrailingCR

/-- Whitespace trimming (`str::trim`), over the ASCII whitespace class. -/
def trimL (s : List Char) : List Char :=
  ((s.dropWhile Char.isWhitespace).reverse.dropWhile Char.isWhitespace).reverse

def joinNL : List (List Char) → List Char
  | [] => []
  | [l] => l
  | l :: ls => l ++ '\n' :: joinNL ls

/-- The `scan`-based collapse of runs of blank lines in `clean_comment_text`:
the threaded Boolean records whether the previously emitted line was blank. -/
def collapseBlank : Bool → List (List Char) → List (List Char)
  | _, [] => []
  | lastBlank, line :: rest =>
    if line = [] then
      if lastBlank then collapseBlank true rest
      else [] :: collapseBlank true rest
    else line :: collapseBlank false rest

/-- `clean_comment_text` from `src/hn.rs`: normalize paragraph and break
markers to newlines, strip the remaining tags, decode entities, trim each
line, collapse blank-line runs, and trim the result. -/
def clean_comment_text (text : String) : String :=
  let paragraph_normalized :=
    rust_replace
      (rust_replace
        (rust_replace (rust_replace (rust_replace text "<p>" "\n") "</p>" "") "<br>" "\n")
        "<br/>" "\n")
      "<br />" "\n"
  let without_tags := strip_html_tags paragraph_normalized
  let decoded := decode_html_entities without_tags
  let compacted :=
    String.mk (trimL (joinNL (collapseBlank false ((rustLinesL decoded.data).map trimL))))
  String.mk (trimL compacted.data)

/-! ## Items and comments (`src/hn.rs`) -/

/-- The `Item` record deserialized from the API (`src/hn.rs`).  The Rust
field `by` is called `by_` here because `by` is a Lean keyword. -/
structure Item where
  id : Nat
  title : Option String := none
  url : Option String := none
  score : Option Nat := none
  descendants : Option Nat := none
  by_ : Option String := none
  time : Option Nat := none
  text : Option String := none
  kids : Option (List Nat) := none
  kind : Option String := none
  dead : Bool := false
  deleted : Bool := false
deriving DecidableEq

/-- The output `Comment` record (`src/hn.rs`). -/
structure Comment where
  author : String
  text : String
  published_at : Nat
  depth : Nat
  ancestor_has_next_sibling : List Bool
  is_last_sibling : Bool
deriving DecidableEq

/-- The `PendingComment` work item of the materialization pass. -/
structure PendingComment where
  id : Nat
  depth : Nat
  ancestor_has_next_sibling : List Bool
  is_last_sibling : Bool
deriving DecidableEq

/-- The `Comment` literal pushed by `build_comments_from_cache`: the author
falls back to `"unknown"` when absent or empty, the timestamp to `0`. -/
def mkCommentNode (item : Item) (depth : Nat) (anc : List Bool) (isLast : Bool)
    (cleaned : String) : Comment :=
  { author :=
      match item.by_ with
      | some a => if a = "" then "unknown" else a
      | none => "unknown"
    text := cleaned
    published_at := item.time.getD 0
    depth := depth
    ancestor_has_next_sibling := anc
    is_last_sibling := isLast }

/-- The pending entries pushed for one child-id list, top of stack first:
entry `index` carries the inherited vector and
`is_last_sibling = (index + 1 == child_count)`, as in the enumerated
reversed pushes of the source. -/
def mkPending (depth : Nat) (anc : List Bool) (ids : List Nat) : List PendingComment :=
  ids.enum.map fun p =>
    { id := p.2
      depth := depth
      ancestor_has_next_sibling := anc
      is_last_sibling := p.1 + 1 == ids.length }

/-- The `while let Some(node) = stack.pop()` loop of
`build_comments_from_cache`, with explicit fuel (one unit per popped node).
Returning `none` signals the "insufficient data" abort of the pass; fuel
exhaustion is also reported as `none`. -/
def buildGo (limit : Nat) (items : Nat → Option Item) (failed : Nat → Bool) :
    Nat → List PendingComment → List Comment → Option (List Comment)
  | 0, _, _ => none
  | _ + 1, [], acc => some acc
  | fuel + 1, node :: rest, acc =>
    if limit ≤ acc.length then some acc
    else
      match items node.id with
      | none => if failed node.id then buildGo limit items failed fuel rest acc else none
      | some item =>
        let child_ids := item.kids.getD []
        let child_anc := node.ancestor_has_next_sibling ++ [!node.is_last_sibling]
        let stack2 := mkPending (node.depth + 1) child_anc child_ids ++ rest
        if item.dead || item.deleted then buildGo limit items failed fuel stack2 acc
        else if item.kind ≠ some "comment" then buildGo limit items failed fuel stack2 acc
        else
          let cleaned := clean_comment_text (item.text.getD "")
          if cleaned = "" then buildGo limit items failed fuel stack2 acc
          else
            buildGo limit items failed fuel stack2
              (acc ++ [mkCommentNode item node.depth node.ancestor_has_next_sibling
                  node.is_last_sibling cleaned])

/-- `build_comments_from_cache` from `src/hn.rs`: seed the stack with the
root child ids (depth 0, empty ancestor vector) and run the pass. -/
def build_comments_from_cache (root_kids : List Nat) (limit : Nat)
    (items : Nat → Option Item) (failed : Nat → Bool) (fuel : Nat) : Option (List Comment) :=
  buildGo limit items failed fuel (mkPending 0 [] root_kids) []


/-! ## The discovered forest and its pre-order specification

A `CTree` describes the shape of the data that one materialization pass
can see: a permanently-failed id, or a cached item together with the trees
of its children.  `Rep` states that such a tree faithfully describes the
item cache and failed set handed to `build_comments_from_cache`. -/

inductive CTree : Type where
  | fail (id : Nat)
  | node (id : Nat) (item : Item) (children : List CTree)

def CTree.rootId : CTree → Nat
  | .fail i => i
  | .node i _ _ => i

mutual

def CTree.size : CTree → Nat
  | .fail _ => 1
  | .node _ _ cs => 1 + sizeForest cs

def sizeForest : List CTree → Nat
  | [] => 0
  | t :: ts => t.size + sizeForest ts

end

/-- The tree faithfully describes the build-scoped cache: a `fail` leaf is
an id that is absent from the cache and in the failed set; a `node` is a
cached item whose recorded child-id list is exactly the roots of its child
trees. -/
inductive Rep (items : Nat → Option Item) (failed : Nat → Bool) : CTree → Prop where
  | fail {i : Nat} (hitem : items i = none) (hfail : failed i = true) :
      Rep items failed (CTree.fail i)
  | node {i : Nat} {item : Item} {cs : List CTree} (hitem : items i = some item)
      (hkids : cs.map CTree.rootId = item.kids.getD [])
      (hcs : ∀ c ∈ cs, Rep items failed c) :
      Rep items failed (CTree.node i item cs)

mutual

/-- Specification traversal of a single tree: the node itself first (when
it is a comment, not dead or deleted, and has non-empty cleaned text), then
its children's forest with the depth increased by one and
`!isLast` appended to the ancestor vector.  A failed subtree contributes
nothing. -/
def specTree (d : Nat) (a : List Bool) (isLast : Bool) : CTree → List Comment
  | .fail _ => []
  | .node _ item cs =>
    (if item.dead || item.deleted then []
     else if item.kind ≠ some "comment" then []
     else
       let cleaned := clean_comment_text (item.text.getD "")
       if cleaned = "" then [] else [mkCommentNode item d a isLast cleaned]) ++
      specForest (d + 1) (a ++ [!isLast]) cs

/-- Specification traversal of a forest, siblings left to right; a tree is
the last sibling exactly when no tree follows it. -/
def specForest (d : Nat) (a : List Bool) : List CTree → List Comment
  | [] => []
  | t :: ts => specTree d a ts.isEmpty t ++ specForest d a ts

end

/-- An annotated tree: a tree together with the depth, inherited ancestor
vector and last-sibling flag under which it is to be traversed. -/
structure AnnTree where
  tree : CTree
  depth : Nat
  anc : List Bool
  isLast : Bool

def AnnTree.toPending (x : AnnTree) : PendingComment :=
  { id := x.tree.rootId
    depth := x.depth
    ancestor_has_next_sibling := x.anc
    is_last_sibling := x.isLast }

def annsPending (xs : List AnnTree) : List PendingComment :=
  xs.map AnnTree.toPending

def annsSpec : List AnnTree → List Comment
  | [] => []
  | x :: xs => specTree x.depth x.anc x.isLast x.tree ++ annsSpec xs

def annsSize : List AnnTree → Nat
  | [] => 0
  | x :: xs => x.tree.size + annsSize xs

/-- The annotations given to the children of a node (or to the root
forest): all at the same depth with the same inherited vector, and only the
final child flagged as last sibling. -/
def childAnns (d : Nat) (a : List Bool) : List CTree → List AnnTree
  | [] => []
  | c :: cs => ⟨c, d, a, cs.isEmpty⟩ :: childAnns d a cs

/-- Structural form of `mkPending`. -/
def mkPendingS (depth : Nat) (anc : List Bool) : List Nat → List PendingComment
  | [] => []
  | i :: ids => ⟨i, depth, anc, ids.isEmpty⟩ :: mkPendingS depth anc ids

theorem isEmpty_eq_length_beq (l : List α) : l.isEmpty = (l.length == 0) := by
  cases l <;> rfl

theorem mkPending_enumFrom (d : Nat) (a : List Bool) :
    ∀ (ids : List Nat) (k : Nat),
      ((List.enumFrom k ids).map fun p =>
          PendingComment.mk p.2 d a (p.1 + 1 == k + ids.length))
        = mkPendingS d a ids := by
  intro ids
  induction ids with
  | nil => intro k; rfl
  | cons i ids ih =>
    intro k
    simp only [List.enumFrom, List.map_cons, List.length_cons, mkPendingS]
    refine congrArg₂ (· :: ·) ?_ ?_
    · simp only [PendingComment.mk.injEq, true_and]
      rw [isEmpty_eq_length_beq]
      apply Bool.eq_iff_iff.mpr
      simp only [beq_iff_eq]
      omega
    · have hC : k + (ids.length + 1) = (k + 1) + ids.length := by omega
      rw [hC]
      exact ih (k + 1)

theorem mkPending_eq (d : Nat) (a : List Bool) (ids : List Nat) :
    mkPending d a ids = mkPendingS d a ids := by
  have h := mkPending_enumFrom d a ids 0
  simpa [mkPending, List.enum] using h

theorem annsPending_append (xs ys : List AnnTree) :
    annsPending (xs ++ ys) = annsPending xs ++ annsPending ys := by
  simp [annsPending]

theorem annsSpec_append (xs ys : List AnnTree) :
    annsSpec (xs ++ ys) = annsSpec xs ++ annsSpec ys := by
  induction xs with
  | nil => rfl
  | cons x xs ih => simp [annsSpec, ih]

theorem annsSize_append (xs ys : List AnnTree) :
    annsSize (xs ++ ys) = annsSize xs + annsSize ys := by
  induction xs with
  | nil => simp [annsSize]
  | cons x xs ih => simp [annsSize, ih]; omega

theorem annsPending_childAnns (d : Nat) (a : List Bool) (cs : List CTree) :
    annsPending (childAnns d a cs) = mkPendingS d a (cs.map CTree.rootId) := by
  induction cs with
  | nil => rfl
  | cons c cs ih =>
    simp only [childAnns, annsPending, List.map_cons, mkPendingS] at *
    refine congrArg₂ _ ?_ ih
    simp [AnnTree.toPending]
    cases cs <;> rfl

theorem annsSpec_childAnns (d : Nat) (a : List Bool) (cs : List CTree) :
    annsSpec (childAnns d a cs) = specForest d a cs := by
  induction cs with
  | nil => rfl
  | cons c cs ih => simp [childAnns, annsSpec, specForest, ih]

theorem annsSize_childAnns (d : Nat) (a : List Bool) (cs : List CTree) :
    annsSize (childAnns d a cs) = sizeForest cs := by
  induction cs with
  | nil => rfl
  | cons c cs ih => simp [childAnns, annsSize, sizeForest, ih]

theorem mem_childAnns {d : Nat} {a : List Bool} {cs : List CTree} {x : AnnTree}
    (hx : x ∈ childAnns d a cs) : x.tree ∈ cs := by
  induction cs with
  | nil => cases hx
  | cons c cs ih =>
    rcases hx with _ | hx
    · simp
    · exact List.mem_cons_of_mem _ (ih (by assumption))

/-! Step equations of the materialization loop, one per branch of the
popped-node case analysis in the source. -/

theorem buildGo_nil (limit : Nat) (items : Nat → Option Item) (failed : Nat → Bool)
    (n : Nat) (acc : List Comment) :
    buildGo limit items failed (n + 1) [] acc = some acc := rfl

theorem buildGo_step_limit {limit : Nat} {acc : List Comment}
    (items : Nat → Option Item) (failed : Nat → Bool) (n : Nat)
    (node : PendingComment) (rest : List PendingComment)
    (h : limit ≤ acc.length) :
    buildGo limit items failed (n + 1) (node :: rest) acc = some acc := by
  simp [buildGo, h]

theorem buildGo_step_failed {limit : Nat} {acc : List Comment}
    {items : Nat → Option Item} {failed : Nat → Bool} (n : Nat)
    {node : PendingComment} (rest : List PendingComment)
    (h : ¬limit ≤ acc.length) (hitem : items node.id = none)
    (hfail : failed node.id = true) :
    buildGo limit items failed (n + 1) (node :: rest) acc
      = buildGo limit items failed n rest acc := by
  simp [buildGo, h, hitem, hfail]

theorem buildGo_step_stuck {limit : Nat} {acc : List Comment}
    {items : Nat → Option Item} {failed : Nat → Bool} (n : Nat)
    {node : PendingComment} (rest : List PendingComment)
    (h : ¬limit ≤ acc.length) (hitem : items node.id = none)
    (hfail : failed node.id = false) :
    buildGo limit items failed (n + 1) (node :: rest) acc = none := by
  simp [buildGo, h, hitem, hfail]

/-- A cached node that is dead, deleted, of non-comment kind, or whose
cleaned text is empty emits nothing, but its children are pushed (depth one
greater, the negated last-sibling flag appended to the inherited vector)
and the loop continues. -/
theorem buildGo_step_skip {limit : Nat} {acc : List Comment}
    {items : Nat → Option Item} {failed : Nat → Bool} (n : Nat)
    {node : PendingComment} (rest : List PendingComment) {item : Item}
    (h : ¬limit ≤ acc.length) (hitem : items node.id = some item)
    (hinv : item.dead = true ∨ item.deleted = true ∨ item.kind ≠ some "comment"
      ∨ clean_comment_text (item.text.getD "") = "") :
    buildGo limit items failed (n + 1) (node :: rest) acc
      = buildGo limit items failed n
          (mkPending (node.depth + 1)
              (node.ancestor_has_next_sibling ++ [!node.is_last_sibling])
              (item.kids.getD []) ++ rest)
          acc := by
  cases hdd : (item.dead || item.deleted) with
  | true => simp [buildGo, h, hitem, hdd]
  | false =>
    by_cases hk : item.kind = some "comment"
    · have hcl : clean_comment_text (item.text.getD "") = "" := by
        rcases hinv with h1 | h2 | h3 | h4
        · simp [h1] at hdd
        · simp [h2] at hdd
        · exact absurd hk h3
        · exact h4
      simp [buildGo, h, hitem, hdd, hk, hcl]
    · simp [buildGo, h, hitem, hdd, hk]

/-- A cached, visible comment node emits exactly one `Comment` carrying its
pending annotations, and pushes its children. -/
theorem buildGo_step_emit {limit : Nat} {acc : List Comment}
    {items : Nat → Option Item} {failed : Nat → Bool} (n : Nat)
    {node : PendingComment} (rest : List PendingComment) {item : Item}
    (h : ¬limit ≤ acc.length) (hitem : items node.id = some item)
    (hdead : item.dead = false) (hdel : item.deleted = false)
    (hk : item.kind = some "comment")
    (hcl : clean_comment_text (item.text.getD "") ≠ "") :
    buildGo limit items failed (n + 1) (node :: rest) acc
      = buildGo limit items failed n
          (mkPending (node.depth + 1)
              (node.ancestor_has_next_sibling ++ [!node.is_last_sibling])
              (item.kids.getD []) ++ rest)
          (acc ++ [mkCommentNode item node.depth node.ancestor_has_next_sibling
              node.is_last_sibling (clean_comment_text (item.text.getD ""))]) := by
  simp [buildGo, h, hitem, hdead, hdel, hk, hcl]

/-- Main simulation lemma: on a stack of annotated, faithfully represented
trees, the materialization loop succeeds and extends the accumulator with
the specification traversal of the stack, truncated to the remaining
allowance.  One unit of fuel per tree node suffices. -/
theorem buildGo_eq_spec (limit : Nat) (items : Nat → Option Item) (failed : Nat → Bool) :
    ∀ (fuel : Nat) (anns : List AnnTree) (acc : List Comment),
      (∀ x ∈ anns, Rep items failed x.tree) →
      annsSize anns < fuel →
      acc.length ≤ limit →
      buildGo limit items failed fuel (annsPending anns) acc
        = some (acc ++ (annsSpec anns).take (limit - acc.length)) := by
  intro fuel
  induction fuel with
  | zero => intro anns acc _ hsz _; exact absurd hsz (by omega)
  | succ n ih =>
    intro anns acc hrep hsz hacc
    cases anns with
    | nil =>
      simp [annsPending, buildGo, annsSpec]
    | cons x xs =>
      have hcons : annsPending (x :: xs) = AnnTree.toPending x :: annsPending xs := rfl
      by_cases hlim : limit ≤ acc.length
      · have heq : limit - acc.length = 0 := by omega
        rw [hcons, buildGo_step_limit items failed n _ _ hlim, heq]
        simp
      · have hxs : ∀ y ∈ xs, Rep items failed y.tree := fun y hy =>
          hrep y (List.mem_cons_of_mem _ hy)
        have hszx : annsSize (x :: xs) = x.tree.size + annsSize xs := rfl
        cases htree : x.tree with
        | fail i =>
          have hr := hrep x (List.mem_cons_self x xs)
          rw [htree] at hr
          cases hr with
          | fail hitem hfail =>
            have hid : (AnnTree.toPending x).id = i := by
              simp [AnnTree.toPending, htree, CTree.rootId]
            rw [hcons, buildGo_step_failed n _ hlim (hid ▸ hitem) (hid ▸ hfail),
              ih xs acc hxs (by rw [htree] at hszx; simp [CTree.size] at hszx; omega) hacc]
            simp [annsSpec, htree, specTree]
        | node i item cs =>
          have hr := hrep x (List.mem_cons_self x xs)
          rw [htree] at hr
          cases hr with
          | node hitem hkids hcs =>
            have hid : (AnnTree.toPending x).id = i := by
              simp [AnnTree.toPending, htree, CTree.rootId]
            have hanns2 :
                mkPending ((AnnTree.toPending x).depth + 1)
                    ((AnnTree.toPending x).ancestor_has_next_sibling
                      ++ [!(AnnTree.toPending x).is_last_sibling])
                    (item.kids.getD []) ++ annsPending xs
                  = annsPending
                      (childAnns (x.depth + 1) (x.anc ++ [!x.isLast]) cs ++ xs) := by
              rw [annsPending_append, annsPending_childAnns, ← hkids, mkPending_eq]
              rfl
            have hrep2 :
                ∀ y ∈ childAnns (x.depth + 1) (x.anc ++ [!x.isLast]) cs ++ xs,
                  Rep items failed y.tree := by
              intro y hy
              rcases List.mem_append.mp hy with hy | hy
              · exact hcs y.tree (mem_childAnns hy)
              · exact hxs y hy
            have hsz2 :
                annsSize (childAnns (x.depth + 1) (x.anc ++ [!x.isLast]) cs ++ xs) < n := by
              rw [annsSize_append, annsSize_childAnns]
              rw [htree] at hszx
              simp [CTree.size] at hszx
              omega
            have hspec2 :
                annsSpec (childAnns (x.depth + 1) (x.anc ++ [!x.isLast]) cs ++ xs)
                  = specForest (x.depth + 1) (x.anc ++ [!x.isLast]) cs ++ annsSpec xs := by
              rw [annsSpec_append, annsSpec_childAnns]
            have hspecx :
                annsSpec (x :: xs)
                  = specTree x.depth x.anc x.isLast (CTree.node i item cs) ++ annsSpec xs := by
              simp [annsSpec, htree]
            by_cases hvis : item.dead = false ∧ item.deleted = false
              ∧ item.kind = some "comment" ∧ clean_comment_text (item.text.getD "") ≠ ""
            · obtain ⟨hdead, hdel, hk, hcl⟩ := hvis
              rw [hcons, buildGo_step_emit n _ hlim (hid ▸ hitem) hdead hdel hk hcl, hanns2,
                ih _ _ hrep2 hsz2 (by simp; omega)]
              rw [hspecx, hspec2]
              have htk : limit - acc.length = (limit - (acc.length + 1)) + 1 := by omega
              rw [htk]
              simp [specTree, hdead, hdel, hk, hcl, List.take_succ_cons, List.append_assoc,
                AnnTree.toPending]
            · have hinv : item.dead = true ∨ item.deleted = true
                  ∨ item.kind ≠ some "comment"
                  ∨ clean_comment_text (item.text.getD "") = "" := by
                by_cases h1 : item.dead = true
                · exact Or.inl h1
                by_cases h2 : item.deleted = true
                · exact Or.inr (Or.inl h2)
                by_cases h3 : item.kind = some "comment"
                · refine Or.inr (Or.inr (Or.inr ?_))
                  by_cases h4 : clean_comment_text (item.text.getD "") = ""
                  · exact h4
                  · exact absurd ⟨by simp at h1 ⊢; exact h1, by simp at h2 ⊢; exact h2,
                      h3, h4⟩ hvis
                · exact Or.inr (Or.inr (Or.inl h3))
              rw [hcons, buildGo_step_skip n _ hlim (hid ▸ hitem) hinv, hanns2,
                ih _ _ hrep2 hsz2 hacc]
              rw [hspecx, hspec2]
              rcases hinv with h1 | h2 | h3 | h4
              · simp [specTree, h1]
              · simp [specTree, h2]
              · simp [specTree, h3]
              · by_cases hdd2 : (item.dead || item.deleted) = true
                · simp [specTree, hdd2]
                · simp at hdd2
                  by_cases h3 : item.kind = some "comment"
                  · simp [specTree, hdd2, h3, h4]
                  · simp [specTree, hdd2, h3]

theorem mem_mkPending {d : Nat} {a : List Bool} {ids : List Nat} {p : PendingComment}
    (hp : p ∈ mkPending d a ids) : p.depth = d ∧ p.ancestor_has_next_sibling = a := by
  rcases List.mem_map.mp hp with ⟨q, _, hq⟩
  rw [← hq]
  exact ⟨rfl, rfl⟩

/-- Invariant of the loop: if every stack entry's inherited vector has
length equal to its depth (and likewise for the accumulated comments), the
same holds for every comment of a successful result — for arbitrary item
caches and failed sets. -/
theorem buildGo_anc_length (limit : Nat) (items : Nat → Option Item) (failed : Nat → Bool) :
    ∀ (fuel : Nat) (stack : List PendingComment) (acc out : List Comment),
      (∀ p ∈ stack, p.ancestor_has_next_sibling.length = p.depth) →
      (∀ c ∈ acc, c.ancestor_has_next_sibling.length = c.depth) →
      buildGo limit items failed fuel stack acc = some out →
      ∀ c ∈ out, c.ancestor_has_next_sibling.length = c.depth := by
  intro fuel
  induction fuel with
  | zero => intro stack acc out _ _ hrun; cases hrun
  | succ n ih =>
    intro stack acc out hstack hacc hrun
    cases stack with
    | nil =>
      rw [buildGo_nil] at hrun
      cases hrun
      exact hacc
    | cons node rest =>
      have hnode := hstack node (List.mem_cons_self node rest)
      have hrest : ∀ p ∈ rest, p.ancestor_has_next_sibling.length = p.depth := fun p hp =>
        hstack p (List.mem_cons_of_mem _ hp)
      by_cases hlim : limit ≤ acc.length
      · rw [buildGo_step_limit items failed n node rest hlim] at hrun
        cases hrun
        exact hacc
      · cases hitem : items node.id with
        | none =>
          cases hfail : failed node.id with
          | true =>
            rw [buildGo_step_failed n rest hlim hitem hfail] at hrun
            exact ih rest acc out hrest hacc hrun
          | false =>
            rw [buildGo_step_stuck n rest hlim hitem hfail] at hrun
            cases hrun
        | some item =>
          have hstack2 :
              ∀ p ∈ mkPending (node.depth + 1)
                  (node.ancestor_has_next_sibling ++ [!node.is_last_sibling])
                  (item.kids.getD []) ++ rest,
                p.ancestor_has_next_sibling.length = p.depth := by
            intro p hp
            rcases List.mem_append.mp hp with hp | hp
            · obtain ⟨hpd, hpa⟩ := mem_mkPending hp
              rw [hpd, hpa]
              simp [hnode]
            · exact hrest p hp
          by_cases hvis : item.dead = false ∧ item.deleted = false
            ∧ item.kind = some "comment" ∧ clean_comment_text (item.text.getD "") ≠ ""
          · obtain ⟨hdead, hdel, hk, hcl⟩ := hvis
            rw [buildGo_step_emit n rest hlim hitem hdead hdel hk hcl] at hrun
            refine ih _ _ out hstack2 ?_ hrun
            intro c hc
            rcases List.mem_append.mp hc with hc | hc
            · exact hacc c hc
            · rcases List.mem_singleton.mp hc with rfl
              simpa [mkCommentNode] using hnode
          · have hinv : item.dead = true ∨ item.deleted = true
                ∨ item.kind ≠ some "comment"
                ∨ clean_comment_text (item.text.getD "") = "" := by
              by_cases h1 : item.dead = true
              · exact Or.inl h1
              by_cases h2 : item.deleted = true
              · exact Or.inr (Or.inl h2)
              by_cases h3 : item.kind = some "comment"
              · refine Or.inr (Or.inr (Or.inr ?_))
                by_cases h4 : clean_comment_text (item.text.getD "") = ""
                · exact h4
                · exact absurd ⟨by simpa using h1, by simpa using h2, h3, h4⟩ hvis
              · exact Or.inr (Or.inr (Or.inl h3))
            rw [buildGo_step_skip n rest hlim hitem hinv] at hrun
            exact ih _ _ out hstack2 hacc hrun

/-- The last-sibling flag passed by the specification traversal to the
tree at index `i` of an `n`-tree sibling list is exactly `i + 1 == n`:
a node is flagged last iff it is the final element of its parent's child
list. -/
theorem specForest_enumFrom (d : Nat) (a : List Bool) :
    ∀ (ts : List CTree) (k : Nat),
      ((List.enumFrom k ts).map fun p => specTree d a (p.1 + 1 == k + ts.length) p.2).flatten
        = specForest d a ts := by
  intro ts
  induction ts with
  | nil => intro k; rfl
  | cons t ts ih =>
    intro k
    simp only [List.enumFrom, List.map_cons, List.length_cons, List.flatten_cons]
    refine congrArg₂ (· ++ ·) ?_ ?_
    · have hflag : (k + 1 == k + (ts.length + 1)) = ts.isEmpty := by
        rw [isEmpty_eq_length_beq]
        apply Bool.eq_iff_iff.mpr
        simp only [beq_iff_eq]
        omega
      rw [hflag]
    · have hC : k + (ts.length + 1) = (k + 1) + ts.length := by omega
      rw [hC]
      exact ih (k + 1)

/-- The content of C1, shared by several claims: on a faithfully
represented forest the pass succeeds and returns exactly the truncated
specification traversal. -/
theorem build_eq_spec (items : Nat → Option Item) (failed : Nat → Bool)
    (F : List CTree) (root_kids : List Nat) (limit fuel : Nat)
    (hrep : ∀ t ∈ F, Rep items failed t)
    (hroot : F.map CTree.rootId = root_kids)
    (hfuel : sizeForest F < fuel) :
    build_comments_from_cache root_kids limit items failed fuel
      = some ((specForest 0 [] F).take limit) := by
  have h := buildGo_eq_spec limit items failed fuel (childAnns 0 [] F) []
    (fun x hx => hrep x.tree (mem_childAnns hx))
    (by rw [annsSize_childAnns]; exact hfuel)
    (by simp)
  rw [build_comments_from_cache, ← hroot, mkPending_eq, ← annsPending_childAnns, h,
    annsSpec_childAnns]
  simp

/-! ## Concrete scenarios used by the witnesses -/

/-- The concrete scenario of the specification: post children `[10, 20]`,
item 10 a comment `"<p>Hi</p>"` with child 11 (`"Reply"`), item 20 a
comment `"Second"`. -/
def exItem10 : Item :=
  { id := 10, text := some "<p>Hi</p>", kids := some [11], kind := some "comment" }

def exItem11 : Item :=
  { id := 11, text := some "Reply", kind := some "comment" }

def exItem20 : Item :=
  { id := 20, text := some "Second", kind := some "comment" }

def exItems : Nat → Option Item
  | 10 => some exItem10
  | 11 => some exItem11
  | 20 => some exItem20
  | _ => none

def exFailed : Nat → Bool := fun _ => false

def exForest : List CTree :=
  [CTree.node 10 exItem10 [CTree.node 11 exItem11 []], CTree.node 20 exItem20 []]

theorem exForest_rep : ∀ t ∈ exForest, Rep exItems exFailed t := by
  intro t ht
  rcases ht with _ | ⟨_, (_ | ⟨_, h⟩)⟩
  · refine Rep.node rfl rfl ?_
    intro c hc
    rcases hc with _ | ⟨_, h⟩
    · refine Rep.node rfl rfl ?_
      intro c hc
      cases hc
    · cases h
  · refine Rep.node rfl rfl ?_
    intro c hc
    cases hc
  · cases h

/-- A mixed scenario mirroring the repository's own unit test: a failed
sibling id 30 among the roots, a dead child 11, a non-comment root 20. -/
def tItem10 : Item :=
  { id := 10, by_ := some "alice", time := some 100,
    text := some "<p>First<br>line</p>", kids := some [11, 12], kind := some "comment" }

def tItem11 : Item :=
  { id := 11, kind := some "comment", dead := true, text := some "should not render" }

def tItem12 : Item :=
  { id := 12, by_ := some "", time := some 120, text := some "Parent two",
    kids := some [13], kind := some "comment" }

def tItem13 : Item :=
  { id := 13, by_ := some "carol", time := some 140,
    text := some "&lt;tag&gt; and &#x27;quotes&#x27;", kind := some "comment" }

def tItem20 : Item :=
  { id := 20, kind := some "story", text := some "not a comment" }

def tItems : Nat → Option Item
  | 10 => some tItem10
  | 11 => some tItem11
  | 12 => some tItem12
  | 13 => some tItem13
  | 20 => some tItem20
  | _ => none

/-- The same cache with an additional entry 99: a descendant of the failed
id 30 that happens to be independently cached. -/
def tItems2 : Nat → Option Item
  | 10 => some tItem10
  | 11 => some tItem11
  | 12 => some tItem12
  | 13 => some tItem13
  | 20 => some tItem20
  | 99 => some { id := 99, text := some "orphan", kind := some "comment" }
  | _ => none

def tFailed : Nat → Bool := fun i => i == 30

def tForest : List CTree :=
  [CTree.node 10 tItem10
      [CTree.node 11 tItem11 [], CTree.node 12 tItem12 [CTree.node 13 tItem13 []]],
   CTree.node 20 tItem20 [],
   CTree.fail 30]

theorem tForest_rep : ∀ t ∈ tForest, Rep tItems tFailed t := by
  intro t ht
  rcases ht with _ | ⟨_, (_ | ⟨_, (_ | ⟨_, h⟩)⟩)⟩
  · refine Rep.node rfl rfl ?_
    intro c hc
    rcases hc with _ | ⟨_, (_ | ⟨_, h⟩)⟩
    · exact Rep.node rfl rfl (fun c hc => by cases hc)
    · refine Rep.node rfl rfl ?_
      intro c hc
      rcases hc with _ | ⟨_, h⟩
      · exact Rep.node rfl rfl (fun c hc => by cases hc)
      · cases h
    · cases h
  · exact Rep.node rfl rfl (fun c hc => by cases hc)
  · exact Rep.fail rfl rfl
  · cases h

theorem tForest_rep2 : ∀ t ∈ tForest, Rep tItems2 tFailed t := by
  intro t ht
  rcases ht with _ | ⟨_, (_ | ⟨_, (_ | ⟨_, h⟩)⟩)⟩
  · refine Rep.node rfl rfl ?_
    intro c hc
    rcases hc with _ | ⟨_, (_ | ⟨_, h⟩)⟩
    · exact Rep.node rfl rfl (fun c hc => by cases hc)
    · refine Rep.node rfl rfl ?_
      intro c hc
      rcases hc with _ | ⟨_, h⟩
      · exact Rep.node rfl rfl (fun c hc => by cases hc)
      · cases h
    · cases h
  · exact Rep.node rfl rfl (fun c hc => by cases hc)
  · exact Rep.fail rfl rfl
  · cases h

example :
    build_comments_from_cache [10, 20, 30] 10 tItems tFailed 20
      = some
          [{ author := "alice", text := "First\nline", published_at := 100, depth := 0,
             ancestor_has_next_sibling := [], is_last_sibling := false },
           { author := "unknown", text := "Parent two", published_at := 120, depth := 1,
             ancestor_has_next_sibling := [true], is_last_sibling := true },
           { author := "carol", text := "<tag> and \x27quotes\x27", published_at := 140,
             depth := 2, ancestor_has_next_sibling := [true, false],
             is_last_sibling := true }] := by
  decide

example :
    build_comments_from_cache [10, 99] 10 tItems tFailed 20 = none := by
  decide

example :
    (build_comments_from_cache [10, 20, 30] 1 tItems tFailed 20).map (List.map Comment.text)
      = some ["First\nline"] := by
  decide

/-! ## Claims C1 to C4 -/

/-- C1: for every forest of items reachable from a post's child ids (a map
from id to item plus a failed set, faithfully described by `F`), the
successful materialization pass returns exactly the pre-order depth-first
traversal of the comment-kind, non-dead, non-deleted, non-empty-cleaned-
text nodes — root children left to right, each subtree fully before the
next sibling — skipping subtrees rooted at failed ids, truncated to at
most `limit` nodes. -/
theorem c1_build_is_preorder_dfs (items : Nat → Option Item) (failed : Nat → Bool)
    (F : List CTree) (root_kids : List Nat) (limit fuel : Nat)
    (hrep : ∀ t ∈ F, Rep items failed t)
    (hroot : F.map CTree.rootId = root_kids)
    (hfuel : sizeForest F < fuel) :
    build_comments_from_cache root_kids limit items failed fuel
      = some ((specForest 0 [] F).take limit) :=
  build_eq_spec items failed F root_kids limit fuel hrep hroot hfuel

theorem c1_witness :
    (∀ t ∈ exForest, Rep exItems exFailed t)
    ∧ List.map CTree.rootId exForest = [10, 20]
    ∧ sizeForest exForest < 10
    ∧ build_comments_from_cache [10, 20] 10 exItems exFailed 10
        = some ((specForest 0 [] exForest).take 10) := by
  refine ⟨exForest_rep, rfl, ?_, ?_⟩
  · simp [exForest, sizeForest, CTree.size]
  · exact c1_build_is_preorder_dfs exItems exFailed exForest [10, 20] 10 10 exForest_rep rfl
      (by simp [exForest, sizeForest, CTree.size])

/-- C2: every comment of any successful pass has an ancestor vector whose
length equals its depth (for arbitrary caches and failed sets), and the
last-sibling flag assigned by the traversal to the tree at index `i` of an
`n`-tree child list is exactly `i + 1 == n` — a node is flagged last iff it
is the final element of its parent's child-id list (or the final root). -/
theorem c2_depth_and_last_sibling :
    (∀ (root_kids : List Nat) (limit : Nat) (items : Nat → Option Item)
        (failed : Nat → Bool) (fuel : Nat) (out : List Comment),
      build_comments_from_cache root_kids limit items failed fuel = some out →
      ∀ c ∈ out, c.ancestor_has_next_sibling.length = c.depth)
    ∧ (∀ (d : Nat) (a : List Bool) (ts : List CTree),
        ((ts.enum.map fun p => specTree d a (p.1 + 1 == ts.length) p.2).flatten
          = specForest d a ts)) := by
  constructor
  · intro root_kids limit items failed fuel out hrun
    refine buildGo_anc_length limit items failed fuel _ [] out ?_ (by simp) hrun
    intro p hp
    obtain ⟨hpd, hpa⟩ := mem_mkPending hp
    rw [hpd, hpa]
    rfl
  · intro d a ts
    have h := specForest_enumFrom d a ts 0
    simpa [List.enum] using h

/-- The expected output of the specification scenario. -/
def exOut : List Comment :=
  [{ author := "unknown", text := "Hi", published_at := 0, depth := 0,
     ancestor_has_next_sibling := [], is_last_sibling := false },
   { author := "unknown", text := "Reply", published_at := 0, depth := 1,
     ancestor_has_next_sibling := [true], is_last_sibling := true },
   { author := "unknown", text := "Second", published_at := 0, depth := 0,
     ancestor_has_next_sibling := [], is_last_sibling := true }]

theorem c2_witness :
    build_comments_from_cache [10, 20] 10 exItems exFailed 10 = some exOut
    ∧ ∀ c ∈ exOut, c.ancestor_has_next_sibling.length = c.depth := by
  refine ⟨by decide, ?_⟩
  exact c2_depth_and_last_sibling.1 [10, 20] 10 exItems exFailed 10 exOut (by decide)

/-- C3: a permanently-failed id contributes no node and none of its
descendants can appear — the pass output is entirely determined by the
represented forest, in which a failed subtree is a bare `fail` leaf
contributing the empty traversal, so any two caches representing the same
forest (for example, with and without independently cached descendants of
the failed id) give identical outputs — while the pass still succeeds and
materializes the sibling branches. -/
theorem c3_failed_prunes_only_its_subtree (items1 items2 : Nat → Option Item)
    (failed1 failed2 : Nat → Bool) (F : List CTree) (root_kids : List Nat)
    (limit fuel : Nat)
    (hrep1 : ∀ t ∈ F, Rep items1 failed1 t)
    (hrep2 : ∀ t ∈ F, Rep items2 failed2 t)
    (hroot : F.map CTree.rootId = root_kids)
    (hfuel : sizeForest F < fuel) :
    (∀ (d : Nat) (a : List Bool) (l : Bool) (i : Nat),
        specTree d a l (CTree.fail i) = [])
    ∧ build_comments_from_cache root_kids limit items1 failed1 fuel
        = some ((specForest 0 [] F).take limit)
    ∧ build_comments_from_cache root_kids limit items1 failed1 fuel
        = build_comments_from_cache root_kids limit items2 failed2 fuel := by
  have h1 := build_eq_spec items1 failed1 F root_kids limit fuel hrep1 hroot hfuel
  have h2 := build_eq_spec items2 failed2 F root_kids limit fuel hrep2 hroot hfuel
  exact ⟨fun d a l i => rfl, h1, h1.trans h2.symm⟩

theorem c3_witness :
    (∀ t ∈ tForest, Rep tItems tFailed t)
    ∧ (∀ t ∈ tForest, Rep tItems2 tFailed t)
    ∧ build_comments_from_cache [10, 20, 30] 10 tItems tFailed 20
        = some ((specForest 0 [] tForest).take 10)
    ∧ build_comments_from_cache [10, 20, 30] 10 tItems tFailed 20
        = build_comments_from_cache [10, 20, 30] 10 tItems2 tFailed 20 := by
  have h := c3_failed_prunes_only_its_subtree tItems tItems2 tFailed tFailed tForest
    [10, 20, 30] 10 20 tForest_rep tForest_rep2 rfl
    (by simp [tForest, sizeForest, CTree.size])
  exact ⟨tForest_rep, tForest_rep2, h.2.1, h.2.2⟩

/-- C4: a cached item of non-comment kind, or dead or deleted, or with
empty cleaned text, emits no `Comment`, but its children are still pushed
and traversed (at depth one greater, with the negated last-sibling flag
appended to the inherited ancestor vector) — both in the loop and in the
specification traversal. -/
theorem c4_invisible_node_children_traversed (limit : Nat) (items : Nat → Option Item)
    (failed : Nat → Bool) (n : Nat) (node : PendingComment)
    (rest : List PendingComment) (acc : List Comment) (item : Item)
    (d : Nat) (a : List Bool) (l : Bool) (i : Nat) (cs : List CTree)
    (hacc : acc.length < limit)
    (hitem : items node.id = some item)
    (hinv : item.dead = true ∨ item.deleted = true ∨ item.kind ≠ some "comment"
      ∨ clean_comment_text (item.text.getD "") = "") :
    buildGo limit items failed (n + 1) (node :: rest) acc
      = buildGo limit items failed n
          (mkPending (node.depth + 1)
              (node.ancestor_has_next_sibling ++ [!node.is_last_sibling])
              (item.kids.getD []) ++ rest) acc
    ∧ specTree d a l (CTree.node i item cs)
        = specForest (d + 1) (a ++ [!l]) cs := by
  constructor
  · exact buildGo_step_skip n rest (by omega) hitem hinv
  · rcases hinv with h1 | h2 | h3 | h4
    · simp [specTree, h1]
    · simp [specTree, h2]
    · simp [specTree, h3]
    · by_cases hdd : (item.dead || item.deleted) = true
      · simp [specTree, hdd]
      · simp at hdd
        by_cases h3 : item.kind = some "comment"
        · simp [specTree, hdd, h3, h4]
        · simp [specTree, hdd, h3]

theorem c4_witness :
    tItems 20 = some tItem20
    ∧ tItem20.kind ≠ some "comment"
    ∧ (buildGo 10 tItems tFailed 5
          [{ id := 20, depth := 0, ancestor_has_next_sibling := [],
             is_last_sibling := true }] []
        = buildGo 10 tItems tFailed 4
            (mkPending 1 [false] (tItem20.kids.getD []) ++ []) []
      ∧ specTree 0 [] true (CTree.node 20 tItem20 [])
          = specForest 1 [false] []) := by
  refine ⟨rfl, by decide, ?_⟩
  exact c4_invisible_node_children_traversed 10 tItems tFailed 4
    { id := 20, depth := 0, ancestor_has_next_sibling := [], is_last_sibling := true }
    [] [] tItem20 0 [] true 20 [] (by decide) rfl
    (Or.inr (Or.inr (Or.inl (by decide))))


/-! ## Claims C5 and C10: text cleaning -/

theorem length_dropWhile_le {α : Type} (p : α → Bool) (ls : List α) :
    (ls.dropWhile p).length ≤ ls.length := by
  induction ls with
  | nil => simp
  | cons l ls ih =>
    by_cases h : p l
    · simp only [List.dropWhile, h, List.length_cons]
      omega
    · simp [List.dropWhile, h]

/-- Collapse of blank-line runs, written after the specification text: a
blank line is kept once and every immediately following blank line is
dropped. -/
def collapseBlankSpec : List (List Char) → List (List Char)
  | [] => []
  | l :: ls =>
    if l = [] then [] :: collapseBlankSpec (ls.dropWhile List.isEmpty)
    else l :: collapseBlankSpec ls
termination_by ls => ls.length
decreasing_by
  · simp only [List.length_cons]
    have := length_dropWhile_le List.isEmpty ls
    omega
  · simp

/-- Text cleaning as described by the specification sentence: convert the
paragraph and line-break markers, strip the remaining markup, decode the
entities, trim each line, collapse every run of blank lines to a single
blank line. -/
def clean_comment_text_spec (text : String) : String :=
  let paragraph_normalized :=
    rust_replace
      (rust_replace
        (rust_replace (rust_replace (rust_replace text "<p>" "\n") "</p>" "") "<br>" "\n")
        "<br/>" "\n")
      "<br />" "\n"
  let without_tags := strip_html_tags paragraph_normalized
  let decoded := decode_html_entities without_tags
  let compacted :=
    String.mk (trimL (joinNL (collapseBlankSpec ((rustLinesL decoded.data).map trimL))))
  String.mk (trimL compacted.data)

theorem collapseBlank_true_eq (ls : List (List Char)) :
    collapseBlank true ls = collapseBlank false (ls.dropWhile List.isEmpty) := by
  induction ls with
  | nil => rfl
  | cons l ls ih =>
    cases l with
    | nil => simpa [collapseBlank, List.dropWhile, List.isEmpty] using ih
    | cons c cr => simp [collapseBlank, List.dropWhile, List.isEmpty]

theorem collapseBlank_eq_spec : ∀ ls, collapseBlank false ls = collapseBlankSpec ls := by
  have key : ∀ (n : Nat) (ls : List (List Char)), ls.length ≤ n →
      collapseBlank false ls = collapseBlankSpec ls := by
    intro n
    induction n with
    | zero =>
      intro ls h
      cases ls with
      | nil => simp [collapseBlank, collapseBlankSpec]
      | cons l ls => simp at h
    | succ n ih =>
      intro ls h
      cases ls with
      | nil => simp [collapseBlank, collapseBlankSpec]
      | cons l ls2 =>
        by_cases hl : l = []
        · subst hl
          have h2 : (ls2.dropWhile List.isEmpty).length ≤ n := by
            have := length_dropWhile_le List.isEmpty ls2
            simp at h
            omega
          simp [collapseBlank, collapseBlankSpec, collapseBlank_true_eq, ih _ h2]
        · have h2 : ls2.length ≤ n := by simp at h; omega
          simp [collapseBlank, collapseBlankSpec, hl, ih _ h2]
  exact fun ls => key ls.length ls le_rfl

/-- After the collapse no two adjacent lines are both blank, and when the
threaded flag says the previously emitted line was blank, the next emitted
line is not blank. -/
theorem collapseBlank_no_adjacent_blanks :
    ∀ (ls : List (List Char)) (b : Bool),
      List.Chain' (fun a c => a ≠ [] ∨ c ≠ []) (collapseBlank b ls)
      ∧ (b = true → ∀ x, (collapseBlank b ls).head? = some x → x ≠ []) := by
  intro ls
  induction ls with
  | nil => exact fun b => ⟨List.chain'_nil, by intro _ x hx; cases hx⟩
  | cons l ls ih =>
    intro b
    by_cases hl : l = []
    · subst hl
      cases b with
      | true => simpa [collapseBlank] using ih true
      | false =>
        refine ⟨?_, by intro h; cases h⟩
        have hunf : collapseBlank false ([] :: ls) = [] :: collapseBlank true ls := by
          simp [collapseBlank]
        rw [hunf, List.chain'_cons']
        refine ⟨?_, (ih true).1⟩
        intro y hy
        exact Or.inr ((ih true).2 rfl y hy)
    · have hunf : collapseBlank b (l :: ls) = l :: collapseBlank false ls := by
        simp [collapseBlank, hl]
      refine ⟨?_, ?_⟩
      · rw [hunf, List.chain'_cons']
        exact ⟨fun y _ => Or.inl hl, (ih false).1⟩
      · intro _ x hx
        rw [hunf, List.head?_cons] at hx
        cases hx
        exact hl

/-- C5: `clean_comment_text` converts the paragraph and line-break markers,
strips remaining markup, decodes the five entity groups, trims every line
and collapses blank-line runs — it agrees with the definition transcribed
from the specification text on every input, never leaves two adjacent
blank lines after the collapse, and cleans `"<p>Hi</p>"` to `"Hi"`. -/
theorem c5_clean_comment_text (s : String) :
    clean_comment_text s = clean_comment_text_spec s
    ∧ (∀ (ls : List (List Char)),
        List.Chain' (fun a c => a ≠ [] ∨ c ≠ []) (collapseBlank false ls))
    ∧ clean_comment_text "<p>Hi</p>" = "Hi" := by
  refine ⟨?_, fun ls => (collapseBlank_no_adjacent_blanks ls false).1, by decide⟩
  simp only [clean_comment_text, clean_comment_text_spec, collapseBlank_eq_spec]

/-- C10: `&amp;` is decoded before `&lt;` and `&gt;`, so already-escaped
entity text is decoded twice: `"&amp;lt;"` becomes `"<"`, not the literal
text `"&lt;"`. -/
theorem c10_double_decode :
    decode_html_entities "&amp;lt;" = "<" ∧ clean_comment_text "&amp;lt;" = "<" := by
  exact ⟨by decide, by decide⟩

/-! ## Application state (`src/app.rs`)

The posts pane state and the comments pane state are modelled as records
holding exactly the fields the embedded functions read or write.  The
cancellation token is modelled by its presence (`Bool`); `Instant` values
are seconds as `Nat`; `current_hhmm` and `Instant::now()` are impure and
are passed in as arguments. -/

inductive PostType : Type where
  | story
  | job
deriving DecidableEq

def PostType.from_kind : Option String → Option PostType
  | some "story" => some PostType.story
  | some "job" => some PostType.job
  | _ => none

inductive FeedTab : Type where
  | top
  | new
  | ask
  | show
  | jobs
  | best
deriving DecidableEq

structure Post where
  id : Nat
  title : String
  url : String
  post_type : PostType
  points : Nat
  comments : Nat
  author : String
  published_at : Nat
deriving DecidableEq

structure CachedFeed where
  story_ids : List Nat
  next_story_index : Nat
  has_more_posts : Bool
  posts : List Post
  selected_index : Option Nat
  last_fetched : Option String
deriving DecidableEq

structure CachedComments where
  comments : List Comment
  fetched_at : Nat
deriving DecidableEq

inductive PostsFetchMode : Type where
  | replace
  | append
deriving DecidableEq

structure PostsFetchResult where
  mode : PostsFetchMode
  story_ids : Option (List Nat)
  items : List Item
  next_story_index : Nat

/-- The posts-pane portion of `App`. -/
structure PostsState where
  next_posts_request_id : Nat
  active_posts_request_id : Option Nat
  posts_request_cancel : Bool
  loading : Bool
  loading_frame : Nat
  story_ids : List Nat
  next_story_index : Nat
  has_more_posts : Bool
  posts : List Post
  posts_notice : Option String
  selected : Option Nat
  last_fetched : Option String
  selected_feed : FeedTab
  feed_cache : FeedTab → Option CachedFeed

def U64_MOD : Nat := 2 ^ 64

def LOAD_MORE_TRIGGER_NUMERATOR : Nat := 3

def LOAD_MORE_TRIGGER_DENOMINATOR : Nat := 4

def COMMENTS_CACHE_REFRESH_AFTER_SECS : Nat := 90

/-- `begin_posts_request`: cancel any outstanding token, advance the
wrapping request-id counter (never 0), mark it active, set the loading
flag, and hand out a fresh token. -/
def begin_posts_request (s : PostsState) : Nat × PostsState :=
  let request_id := max ((s.next_posts_request_id + 1) % U64_MOD) 1
  (request_id,
   { s with
      next_posts_request_id := request_id
      active_posts_request_id := some request_id
      loading := true
      loading_frame := 0
      posts_request_cancel := true })

/-- `posts_from_items`: drop dead or deleted items and items without a
supported kind, title, or url. -/
def posts_from_items (items : List Item) : List Post :=
  items.filterMap fun item =>
    if item.dead || item.deleted then none
    else
      (PostType.from_kind item.kind).bind fun post_type =>
        item.title.bind fun title =>
          item.url.map fun url =>
            { id := item.id
              title := title
              url := url
              post_type := post_type
              points := item.score.getD 0
              comments := item.descendants.getD 0
              author :=
                match item.by_ with
                | some a => if a = "" then "unknown" else a
                | none => "unknown"
              published_at := item.time.getD 0 }

/-- `cache_current_feed`: snapshot the current pagination state into the
per-feed cache. -/
def cache_current_feed (s : PostsState) : PostsState :=
  { s with
      feed_cache := fun tab =>
        if tab = s.selected_feed then
          some { story_ids := s.story_ids
                 next_story_index := s.next_story_index
                 has_more_posts := s.has_more_posts
                 posts := s.posts
                 selected_index := s.selected
                 last_fetched := s.last_fetched }
        else s.feed_cache tab }

/-- `handle_posts_fetched` from `src/app.rs`: a result whose request id is
not the active one returns immediately; otherwise the loading flag and
request bookkeeping are cleared and the payload (or error) is applied. -/
def handle_posts_fetched (s : PostsState) (request_id : Nat)
    (result : Except String PostsFetchResult) (now : String) : PostsState :=
  if s.active_posts_request_id ≠ some request_id then s
  else
    let s1 := { s with
      loading := false
      active_posts_request_id := none
      posts_request_cancel := false }
    match result with
    | Except.ok payload =>
      let s2 := { s1 with posts_notice := none }
      let s3 :=
        match payload.story_ids with
        | some story_ids => { s2 with story_ids := story_ids }
        | none => s2
      let s4 := { s3 with next_story_index := payload.next_story_index }
      let incoming_posts := posts_from_items payload.items
      let s5 :=
        match payload.mode with
        | PostsFetchMode.replace => { s4 with posts := incoming_posts }
        | PostsFetchMode.append => { s4 with posts := s4.posts ++ incoming_posts }
      let s6 := { s5 with last_fetched := some now }
      let s7 := { s6 with
        has_more_posts := decide (s6.next_story_index < s6.story_ids.length) }
      let s8 :=
        if s7.posts.isEmpty then { s7 with selected := none }
        else { s7 with selected := some (min (s7.selected.getD 0) (s7.posts.length - 1)) }
      cache_current_feed s8
    | Except.error err =>
      if err = "Cancelled" then s1
      else if s1.posts.isEmpty then
        { s1 with posts_notice := some ("Failed to load posts: " ++ err) }
      else s1

/-- `has_reached_load_more_threshold` from `src/app.rs`. -/
def has_reached_load_more_threshold (s : PostsState) : Bool :=
  let len := s.posts.length
  if len = 0 then s.has_more_posts
  else
    match s.selected with
    | none => false
    | some selected_index =>
      let threshold_count :=
        (len * LOAD_MORE_TRIGGER_NUMERATOR + (LOAD_MORE_TRIGGER_DENOMINATOR - 1))
          / LOAD_MORE_TRIGGER_DENOMINATOR
      decide (max threshold_count 1 ≤ selected_index + 1)

/-- Whether the chain `load_more_posts` → `request_more_posts` reaches the
point of issuing a network request: the guards of both functions, in
source order. -/
def load_more_posts_fires (s : PostsState) (comments_open : Bool) : Bool :=
  if s.loading || comments_open || !s.has_more_posts then false
  else if !has_reached_load_more_threshold s then false
  else if s.story_ids.length ≤ s.next_story_index then false
  else true

/-- The comments-pane portion of `App`. -/
structure CommentsState where
  comments_open : Bool
  comments : List Comment
  comments_for_post_id : Option Nat
  comments_loading : Bool
  comments_error : Option String
  comments_notice : Option String
  comments_scroll : Nat
  comments_viewport_height : Nat
  comment_line_count : Nat
  comment_start_lines : List Nat
  comments_cache : Nat → Option CachedComments

/-- `reset_comments_state` from `src/app.rs` (the comments cache is kept). -/
def reset_comments_state (s : CommentsState) : CommentsState :=
  { s with
      comments_open := false
      comments := []
      comments_for_post_id := none
      comments_loading := false
      comments_error := none
      comments_notice := none
      comments_scroll := 0
      comments_viewport_height := 0
      comment_line_count := 0
      comment_start_lines := [] }

/-- `load_comments` from `src/app.rs`.  The Boolean of the result records
whether a (single) background fetch task was spawned.  `now` stands for
`Instant::now()` in seconds; the cache age test is
`now - fetched_at ≥ COMMENTS_CACHE_REFRESH_AFTER_SECS`. -/
def load_comments (s : CommentsState) (post_id : Nat) (post_type : PostType)
    (now : Nat) : CommentsState × Bool :=
  let s1 := { s with
    comments_for_post_id := some post_id
    comments_error := none
    comments_notice := none
    comments_loading := false
    comment_start_lines := [] }
  if post_type = PostType.job then
    ({ s1 with
        comments := []
        comments_notice := some "Jobs do not have comment threads." }, false)
  else
    match s1.comments_cache post_id with
    | some cached =>
      let s2 := { s1 with comments := cached.comments }
      if COMMENTS_CACHE_REFRESH_AFTER_SECS ≤ now - cached.fetched_at then
        ({ s2 with comments_loading := true }, true)
      else (s2, false)
    | none =>
      let s2 := { s1 with comments := [] }
      ({ s2 with comments_loading := true }, true)

/-- The `LoadCommentsComplete` arm of `handle_app_event` in `src/app.rs`:
ignored unless the view is open and showing the same post id; a success
overwrites the cache and the displayed nodes; a failure is suppressed when
a cache entry exists, and otherwise clears the nodes and surfaces the
error. -/
def handle_load_comments_complete (s : CommentsState) (post_id : Nat)
    (result : Except String (List Comment)) (now : Nat) : CommentsState :=
  if s.comments_open = false ∨ s.comments_for_post_id ≠ some post_id then s
  else
    let s1 := { s with comments_loading := false }
    match result with
    | Except.ok comments =>
      { s1 with
          comments_cache := fun id =>
            if id = post_id then some { comments := comments, fetched_at := now }
            else s1.comments_cache id
          comments := comments
          comments_error := none
          comments_notice := none
          comments_scroll := 0
          comment_start_lines := [] }
    | Except.error err =>
      if (s1.comments_cache post_id).isSome then { s1 with comments_error := none }
      else
        { s1 with
            comments := []
            comments_error := some err
            comments_notice := none
            comment_start_lines := [] }

/-! ## Claims C6 to C9 -/

theorem next_request_id_ne (n : Nat) :
    max ((max ((n + 1) % U64_MOD) 1 + 1) % U64_MOD) 1 ≠ max ((n + 1) % U64_MOD) 1 := by
  have hM : U64_MOD = 18446744073709551616 := by norm_num [U64_MOD]
  rw [hM]
  omega

/-- C6: a posts fetch result tagged with a request id that is not the
active one is discarded with no effect at all on the state; in particular,
after `begin_posts_request` has been called again (generation `g + 1`),
delivering generation `g`'s result (success or failure) leaves the state —
posts, pagination cursor, selection, loading flag, notices — unchanged. -/
theorem c6_stale_generation_dropped (s : PostsState)
    (r : Except String PostsFetchResult) (now : String) :
    (∀ g, s.active_posts_request_id ≠ some g → handle_posts_fetched s g r now = s)
    ∧ handle_posts_fetched (begin_posts_request (begin_posts_request s).2).2
        (begin_posts_request s).1 r now
      = (begin_posts_request (begin_posts_request s).2).2 := by
  constructor
  · intro g hg
    rw [handle_posts_fetched, if_pos hg]
  · have hne : (begin_posts_request (begin_posts_request s).2).2.active_posts_request_id
        ≠ some (begin_posts_request s).1 := by
      simp only [begin_posts_request, Option.some.injEq, ne_eq]
      intro h
      exact next_request_id_ne s.next_posts_request_id h
    rw [handle_posts_fetched, if_pos hne]

def exPost : Post :=
  { id := 1, title := "t", url := "u", post_type := PostType.story, points := 0,
    comments := 0, author := "a", published_at := 0 }

def exPostsState : PostsState :=
  { next_posts_request_id := 7
    active_posts_request_id := none
    posts_request_cancel := false
    loading := false
    loading_frame := 0
    story_ids := [1, 2, 3, 4, 5, 6]
    next_story_index := 4
    has_more_posts := true
    posts := [exPost, exPost, exPost, exPost]
    posts_notice := none
    selected := some 2
    last_fetched := none
    selected_feed := FeedTab.top
    feed_cache := fun _ => none }

theorem c6_witness :
    exPostsState.active_posts_request_id ≠ some 5
    ∧ handle_posts_fetched exPostsState 5 (Except.error "boom") "12:00:00"
        = exPostsState := by
  refine ⟨by decide, ?_⟩
  exact (c6_stale_generation_dropped exPostsState (Except.error "boom") "12:00:00").1 5
    (by decide)

/-- C7: on opening a post whose cache entry is stale (age at or past the
90-second threshold) the cached nodes are shown immediately and exactly
one background fetch is spawned; if that fetch fails the displayed nodes
stay and no error is surfaced.  With no prior cache entry, a failed fetch
clears the nodes and surfaces the error. -/
theorem c7_stale_while_revalidate (s : CommentsState) (p : Nat) (e : CachedComments)
    (err : String) (now later : Nat) (hopen : s.comments_open = true) :
    (s.comments_cache p = some e →
      COMMENTS_CACHE_REFRESH_AFTER_SECS ≤ now - e.fetched_at →
      ((load_comments s p PostType.story now).2 = true
        ∧ (load_comments s p PostType.story now).1.comments = e.comments
        ∧ (handle_load_comments_complete (load_comments s p PostType.story now).1 p
            (Except.error err) later).comments = e.comments
        ∧ (handle_load_comments_complete (load_comments s p PostType.story now).1 p
            (Except.error err) later).comments_error = none))
    ∧ (s.comments_cache p = none →
      ((load_comments s p PostType.story now).2 = true
        ∧ (load_comments s p PostType.story now).1.comments = []
        ∧ (load_comments s p PostType.story now).1.comments_loading = true
        ∧ (handle_load_comments_complete (load_comments s p PostType.story now).1 p
            (Except.error err) later).comments = []
        ∧ (handle_load_comments_complete (load_comments s p PostType.story now).1 p
            (Except.error err) later).comments_error = some err)) := by
  constructor
  · intro hc hstale
    simp [load_comments, handle_load_comments_complete, hopen, hc, hstale]
  · intro hc
    simp [load_comments, handle_load_comments_complete, hopen, hc]

def exCachedEntry : CachedComments :=
  { comments :=
      [{ author := "bob", text := "cached", published_at := 5, depth := 0,
         ancestor_has_next_sibling := [], is_last_sibling := true }]
    fetched_at := 0 }

def exCommentsState : CommentsState :=
  { comments_open := true
    comments := []
    comments_for_post_id := none
    comments_loading := false
    comments_error := none
    comments_notice := none
    comments_scroll := 0
    comments_viewport_height := 0
    comment_line_count := 0
    comment_start_lines := []
    comments_cache := fun id => if id = 7 then some exCachedEntry else none }

theorem c7_witness :
    (exCommentsState.comments_open = true
      ∧ exCommentsState.comments_cache 7 = some exCachedEntry
      ∧ COMMENTS_CACHE_REFRESH_AFTER_SECS ≤ 91 - exCachedEntry.fetched_at
      ∧ exCommentsState.comments_cache 8 = none)
    ∧ ((load_comments exCommentsState 7 PostType.story 91).2 = true
        ∧ (load_comments exCommentsState 7 PostType.story 91).1.comments
            = exCachedEntry.comments
        ∧ (handle_load_comments_complete
              (load_comments exCommentsState 7 PostType.story 91).1 7
              (Except.error "down") 120).comments = exCachedEntry.comments
        ∧ (handle_load_comments_complete
              (load_comments exCommentsState 7 PostType.story 91).1 7
              (Except.error "down") 120).comments_error = none)
    ∧ ((load_comments exCommentsState 8 PostType.story 91).2 = true
        ∧ (load_comments exCommentsState 8 PostType.story 91).1.comments = []
        ∧ (load_comments exCommentsState 8 PostType.story 91).1.comments_loading = true
        ∧ (handle_load_comments_complete
              (load_comments exCommentsState 8 PostType.story 91).1 8
              (Except.error "down") 120).comments = []
        ∧ (handle_load_comments_complete
              (load_comments exCommentsState 8 PostType.story 91).1 8
              (Except.error "down") 120).comments_error = some "down") := by
  refine ⟨⟨rfl, by decide, by decide, by decide⟩, ?_, ?_⟩
  · exact (c7_stale_while_revalidate exCommentsState 7 exCachedEntry "down" 91 120 rfl).1
      (by decide) (by decide)
  · exact (c7_stale_while_revalidate exCommentsState 8 exCachedEntry "down" 91 120 rfl).2
      (by decide)

theorem ceil_three_quarters (n : Nat) :
    (⌈(3 * (n : ℚ)) / 4⌉ : ℤ) = ((n * 3 + 3) / 4 : ℕ) := by
  have h1 : 4 * ((n * 3 + 3) / 4) ≤ n * 3 + 3 := by omega
  have h2 : n * 3 ≤ 4 * ((n * 3 + 3) / 4) := by omega
  have h1q : (4 : ℚ) * ((n * 3 + 3) / 4 : ℕ) ≤ (n : ℚ) * 3 + 3 := by exact_mod_cast h1
  have h2q : (n : ℚ) * 3 ≤ 4 * ((n * 3 + 3) / 4 : ℕ) := by exact_mod_cast h2
  have hlt : (((n * 3 + 3) / 4 : ℕ) : ℚ) - 1 < (3 * (n : ℚ)) / 4 := by
    rw [lt_div_iff₀ (by norm_num : (0 : ℚ) < 4)]
    linarith
  have hle : (3 * (n : ℚ)) / 4 ≤ (((n * 3 + 3) / 4 : ℕ) : ℚ) := by
    rw [div_le_iff₀ (by norm_num : (0 : ℚ) < 4)]
    linarith
  rw [Int.ceil_eq_iff]
  constructor
  · push_cast
    exact hlt
  · push_cast
    exact hle

/-- C8: with a non-empty post list of length `n` and selected index `s`,
the load-more threshold is reached exactly when
`s + 1 ≥ max ⌈n * 3 / 4⌉ 1`; with an empty list it is reached iff more
posts are believed available; and no load request is issued while a
request is in flight or when no more posts remain. -/
theorem c8_load_more_threshold (s : PostsState) :
    (∀ i : Nat, s.posts.length ≠ 0 → s.selected = some i →
      (has_reached_load_more_threshold s = true
        ↔ max (⌈(3 * (s.posts.length : ℚ)) / 4⌉ : ℤ) 1 ≤ (i : ℤ) + 1))
    ∧ (s.posts.length = 0 → has_reached_load_more_threshold s = s.has_more_posts)
    ∧ (∀ co : Bool, load_more_posts_fires s co = true →
        s.loading = false ∧ s.has_more_posts = true) := by
  refine ⟨?_, ?_, ?_⟩
  · intro i hlen hsel
    simp only [has_reached_load_more_threshold, hsel, if_neg hlen,
      LOAD_MORE_TRIGGER_NUMERATOR, LOAD_MORE_TRIGGER_DENOMINATOR, decide_eq_true_eq]
    rw [ceil_three_quarters]
    omega
  · intro hlen
    simp [has_reached_load_more_threshold, hlen]
  · intro co hfire
    rw [load_more_posts_fires] at hfire
    by_cases h1 : (s.loading || co || !s.has_more_posts) = true
    · rw [if_pos h1] at hfire
      cases hfire
    · constructor
      · cases hval : s.loading
        · rfl
        · exact absurd (by simp [hval]) h1
      · cases hval : s.has_more_posts
        · exact absurd (by simp [hval]) h1
        · rfl

theorem c8_witness :
    (exPostsState.posts.length ≠ 0 ∧ exPostsState.selected = some 2)
    ∧ (has_reached_load_more_threshold exPostsState = true
        ↔ max (⌈(3 * (exPostsState.posts.length : ℚ)) / 4⌉ : ℤ) 1 ≤ (2 : ℤ) + 1) := by
  refine ⟨⟨by decide, rfl⟩, ?_⟩
  exact (c8_load_more_threshold exPostsState).1 2 (by decide) rfl

/-- C9: a completed comments fetch result is applied only when the view is
still open and showing the same post id; a result for a different post id,
or one arriving after the view was closed (`reset_comments_state`), leaves
the state unchanged.  The filter is the post id — the handler takes no
generation id at all. -/
theorem c9_comments_result_filtered (s : CommentsState) (pid : Nat)
    (r : Except String (List Comment)) (now : Nat) :
    ((s.comments_open = false ∨ s.comments_for_post_id ≠ some pid) →
      handle_load_comments_complete s pid r now = s)
    ∧ handle_load_comments_complete (reset_comments_state s) pid r now
        = reset_comments_state s := by
  constructor
  · intro h
    rw [handle_load_comments_complete, if_pos h]
  · have h : (reset_comments_state s).comments_open = false := rfl
    rw [handle_load_comments_complete, if_pos (Or.inl h)]

theorem c9_witness :
    (exCommentsState.comments_open = false
      ∨ exCommentsState.comments_for_post_id ≠ some 7)
    ∧ handle_load_comments_complete exCommentsState 7
        (Except.ok []) 120 = exCommentsState := by
  refine ⟨Or.inr (by decide), ?_⟩
  exact (c9_comments_result_filtered exCommentsState 7 (Except.ok []) 120).1
    (Or.inr (by decide))

end LazyNews
